import Mathlib

/-!
# HydroDraft version-control and compliance-gating core: shallow embedding

This file embeds the data model and operations of the HydroDraft design
assistant's version-control / compliance-gating engine and proves the
specification's claims about it.

The repository ships the React frontend (`SafetyViolations.js`,
`VersionHistory.js`, `api.js`); the backend components (`ViolationRegistry`,
`ExportGate`, `VersionStore`, `VersionManager`, `DiffEngine`) are reached only
through HTTP calls in `services/api.js` and are not part of the source tree.
Those backend operations are therefore modelled from the specification
(section 4 of spec.md), each marked `Modelled from the spec:`; the frontend
component behaviour (`SafetyViolations`, `VersionHistory`) is translated
directly from the JavaScript source.
-/

/-! ## ViolationRegistry and ExportGate (spec sections 4.4, 4.5) -/

/-- Severity of a violation: `critical`, `warning` or `info` (spec section 3). -/
inductive Severity where
  | critical
  | warning
  | info
deriving DecidableEq, Repr

/-- Override audit metadata stored on a violation after a successful override
(spec section 3: `engineer_id`, `engineer_name`, `reason`, `reference_doc`,
`overridden_at`). -/
structure OverrideInfo where
  engineer_id : String
  engineer_name : String
  reason : String
  reference_doc : Option String
  overridden_at : Nat
deriving DecidableEq, Repr

/-- A detected standards violation (spec section 3). -/
structure Violation where
  id : Nat
  job_id : Nat
  code : String
  severity : Severity
  message : String
  overridden : Bool
  override_info : Option OverrideInfo
deriving DecidableEq, Repr

/-- Errors surfaced by the registry (spec section 7). -/
inductive RegError where
  | validationError
  | notFound
  | conflict
deriving DecidableEq, Repr

/-- State of the ViolationRegistry: the violations recorded so far. -/
structure RegState where
  violations : List Violation
deriving DecidableEq, Repr

/-- Modelled from the spec: `recordViolations(job_id, violations[])` of
ViolationRegistry (spec section 4.4) — stores the violations detected for a
calculation run under that job, with no deduplication across runs. -/
def recordViolations (st : RegState) (job : Nat) (vs : List Violation) : RegState :=
  { violations := st.violations ++ vs.map (fun v => { v with job_id := job }) }

/-- The field update applied to a violation by a successful override
(spec section 4.4: sets `overridden = true` and stores the audit metadata). -/
def applyOverride (eng_id eng_name reason : String) (ref : Option String)
    (now : Nat) (v : Violation) : Violation :=
  { v with overridden := true
           override_info := some ⟨eng_id, eng_name, reason, ref, now⟩ }

/-- Modelled from the spec: `override(job_id, violation_id, engineer_id,
engineer_name, reason, reference_doc?)` of ViolationRegistry (spec section
4.4). Validates `len(reason) >= 50` codepoints and non-empty engineer
identity (`ValidationError`), fails `NotFound` for an unknown violation and
`Conflict` when the violation is already overridden; on success sets
`overridden = true` with the audit metadata and a server-assigned timestamp. -/
def overrideViolation (st : RegState) (job vid : Nat)
    (eng_id eng_name reason : String) (ref : Option String) (now : Nat) :
    Except RegError (Violation × RegState) :=
  if reason.length < 50 ∨ eng_id = "" ∨ eng_name = "" then
    .error .validationError
  else
    match st.violations.find? (fun v => v.job_id == job && v.id == vid) with
    | none => .error .notFound
    | some v =>
      if v.overridden then
        .error .conflict
      else
        .ok (applyOverride eng_id eng_name reason ref now v,
             { violations := st.violations.map (fun w =>
                 if w.job_id == job && w.id == vid then
                   applyOverride eng_id eng_name reason ref now w
                 else w) })

/-- Modelled from the spec: `listOpenViolations(job_id)` of ViolationRegistry
(spec section 4.4) — the recorded violations of that job with
`severity == critical` and `overridden == false`. -/
def listOpenViolations (st : RegState) (job : Nat) : List Violation :=
  st.violations.filter (fun v =>
    v.job_id == job && v.severity == Severity.critical && !v.overridden)

/-- Modelled from the spec: `canExport(job_id)` of ExportGate (spec section
4.5) — true exactly when `listOpenViolations(job_id)` is empty, computed on
demand. -/
def canExport (st : RegState) (job : Nat) : Bool :=
  (listOpenViolations st job).isEmpty

/-- A registry operation, for stating state-evolution invariants: either a
calculation run recording its violations or an engineer override request. -/
inductive RegOp where
  | record (job : Nat) (vs : List Violation)
  | override (job vid : Nat) (eng_id eng_name reason : String)
      (ref : Option String) (now : Nat)

/-- One registry transaction (spec section 5: each public operation is a
short all-or-nothing transaction; a failed operation leaves state untouched). -/
def applyRegOp (st : RegState) (op : RegOp) : RegState :=
  match op with
  | .record job vs => recordViolations st job vs
  | .override job vid eng_id eng_name reason ref now =>
    match overrideViolation st job vid eng_id eng_name reason ref now with
    | .ok (_, st') => st'
    | .error _ => st

/-! ## VersionStore and VersionManager (spec sections 4.1, 4.2) -/

/-- A parameter value in a snapshot's parameter map: numeric (modelled as a
rational) or non-numeric text (spec section 4.3 distinguishes the two for
`percent_change`). -/
inductive PValue where
  | num (q : ℚ)
  | str (s : String)
deriving DecidableEq, Repr

/-- A snapshot bound to a version at creation time (spec section 3:
input-parameter map, calculation-log sequence, output-file references; the
log entries and file references are opaque to the core). -/
structure Snapshot where
  input_parameters : List (String × PValue)
  calculation_log : List String
  output_file_refs : List String
deriving DecidableEq, Repr

/-- Version status (spec section 3): `draft`, `approved` or `rollback`. -/
inductive VStatus where
  | draft
  | approved
  | rollback
deriving DecidableEq, Repr

/-- A version record (spec section 3). -/
structure Version where
  version_id : Nat
  project_id : Nat
  tag : Nat
  status : VStatus
  created_at : Nat
  created_by : String
  description : String
  lineage_of : Option Nat
  snapshot : Snapshot
deriving DecidableEq, Repr

/-- Errors surfaced by VersionManager (spec sections 4.2, 7). -/
inductive VerError where
  | notFound
  | crossProjectMismatch
deriving DecidableEq, Repr

/-- Durable state of the VersionStore: the append-only ledger of versions and
the counter generating unique `version_id`s. -/
structure Store where
  versions : List Version
  next_id : Nat
deriving DecidableEq, Repr

/-- The empty store, before any version is created. -/
def Store.empty : Store := ⟨[], 0⟩

/-- Versions of a project, in ledger (append) order. -/
def projectVersions (st : Store) (pid : Nat) : List Version :=
  st.versions.filter (fun v => v.project_id == pid)

/-- Modelled from the spec: atomic tag allocation of VersionStore.append
(spec section 4.1) — the next tag of a project, tags being gap-free and
strictly increasing from 1 (spec section 3). -/
def nextTag (st : Store) (pid : Nat) : Nat :=
  (projectVersions st pid).length + 1

/-- Modelled from the spec: `createVersion(project_id, snapshot, created_by,
description)` of VersionManager delegating to `VersionStore.append` (spec
sections 4.1, 4.2) — allocates the next tag atomically, appends the new
version with `status = draft`, and returns it. -/
def createVersion (st : Store) (pid : Nat) (snap : Snapshot)
    (created_by description : String) (now : Nat) : Version × Store :=
  let v : Version :=
    { version_id := st.next_id
      project_id := pid
      tag := nextTag st pid
      status := .draft
      created_at := now
      created_by := created_by
      description := description
      lineage_of := none
      snapshot := snap }
  (v, { versions := st.versions ++ [v], next_id := st.next_id + 1 })

/-- Modelled from the spec: `approveVersion(version_id, approved_by)` of
VersionManager (spec section 4.2) — draft→approved; re-approving an
already-approved version is a no-op; fails `NotFound` if missing. -/
def approveVersion (st : Store) (vid : Nat) :
    Except VerError (Version × Store) :=
  match st.versions.find? (fun v => v.version_id == vid) with
  | none => .error .notFound
  | some v =>
    if v.status = .approved then
      .ok (v, st)
    else
      .ok ({ v with status := .approved },
           { st with versions := st.versions.map (fun w =>
               if w.version_id == vid then { w with status := .approved }
               else w) })

/-- Modelled from the spec: `rollbackVersion(project_id, version_id)` of
VersionManager (spec section 4.2) — reads the target's snapshot and creates a
brand-new version with `status = rollback`, `lineage_of = version_id` and an
auto-generated description, never mutating the target; fails `NotFound` when
the target is absent and `CrossProjectMismatch` when it belongs to another
project. -/
def rollbackVersion (st : Store) (pid vid : Nat) (created_by : String)
    (now : Nat) : Except VerError (Version × Store) :=
  match st.versions.find? (fun v => v.version_id == vid) with
  | none => .error .notFound
  | some t =>
    if t.project_id ≠ pid then
      .error .crossProjectMismatch
    else
      let v : Version :=
        { version_id := st.next_id
          project_id := pid
          tag := nextTag st pid
          status := .rollback
          created_at := now
          created_by := created_by
          description := "Rollback to version " ++ toString vid
          lineage_of := some vid
          snapshot := t.snapshot }
      .ok (v, { versions := st.versions ++ [v], next_id := st.next_id + 1 })

/-- Modelled from the spec: `listVersions(project_id)` (spec section 4.1
`list`) — the versions of the project, ascending by tag. -/
def listVersions (st : Store) (pid : Nat) : List Version :=
  projectVersions st pid

/-- A VersionManager operation, for stating invariants over every reachable
store state. -/
inductive VMOp where
  | create (pid : Nat) (snap : Snapshot) (created_by description : String)
      (now : Nat)
  | approve (vid : Nat)
  | rollback (pid vid : Nat) (created_by : String) (now : Nat)

/-- One VersionManager transaction (spec section 5: each operation is a
short all-or-nothing transaction at some serialization point; a failed
operation leaves all prior stored state untouched). -/
def applyVMOp (st : Store) (op : VMOp) : Store :=
  match op with
  | .create pid snap cb desc now => (createVersion st pid snap cb desc now).2
  | .approve vid =>
    match approveVersion st vid with
    | .ok (_, st') => st'
    | .error _ => st
  | .rollback pid vid cb now =>
    match rollbackVersion st pid vid cb now with
    | .ok (_, st') => st'
    | .error _ => st

/-- The store reached by running a sequence of transactions from the empty
store. Concurrency (spec section 5) is modelled by arbitrary interleavings:
every operation is atomic, so any concurrent execution is one of these
sequences. -/
def runOps (ops : List VMOp) : Store :=
  ops.foldl applyVMOp Store.empty

/-! ## DiffEngine (spec section 4.3) -/

/-- One entry of the `modified` list of a comparison: key, old value, new
value and, for numeric values with a nonzero old value, the percent change
(spec sections 3 and 4.3). -/
structure ModEntry where
  key : String
  old : PValue
  new : PValue
  percent_change : Option ℚ
deriving DecidableEq, Repr

/-- A structured comparison of two parameter maps (spec section 3):
`added`, `removed`, `modified`. Derived, never persisted. -/
structure Comparison where
  added : List String
  removed : List String
  modified : List ModEntry
deriving DecidableEq, Repr

/-- Modelled from the spec: the `percent_change` of a modified entry (spec
section 4.3) — `(new - old) / old * 100` for numeric values, undefined
(`none`) when the old value is 0 or either value is non-numeric. -/
def percentChange (o n : PValue) : Option ℚ :=
  match o, n with
  | .num oq, .num nq => if oq = 0 then none else some ((nq - oq) / oq * 100)
  | _, _ => none

/-- Modelled from the spec: `DiffEngine.diff(old_map, new_map)` (spec section
4.3). `added` = keys only in the new map, `removed` = keys only in the old
map, `modified` = keys present in both with unequal values, with
`percent_change` computed for numeric values; keys are reported in the
deterministic order of the (flattened, lexicographically sorted) maps. -/
def diff (oldm newm : List (String × PValue)) : Comparison :=
  { added := (newm.filter (fun p => (oldm.lookup p.1).isNone)).map Prod.fst
    removed := (oldm.filter (fun p => (newm.lookup p.1).isNone)).map Prod.fst
    modified := oldm.filterMap (fun p =>
      match newm.lookup p.1 with
      | none => none
      | some nv =>
        if nv = p.2 then none
        else some ⟨p.1, p.2, nv, percentChange p.2 nv⟩) }

/-! ## Frontend: SafetyViolations component
(`design_assistant/frontend/src/components/SafetyViolations.js`) -/

/-- The violation shape the `SafetyViolations` component consumes: it reads
only the `overridden` flag for the export-status alert. Other displayed
fields (message, code, reference) do not affect the modelled output. -/
structure FViolation where
  id : Nat
  overridden : Bool
deriving DecidableEq, Repr

/-- The export-permission outputs of one render of `SafetyViolations`:
the header chip label (line 111), whether the blocking alert is shown
(line 222) and the unresolved count it displays (line 225). -/
structure SafetyRender where
  exportChipLabel : String
  blockedAlertShown : Bool
  unresolvedCount : Nat
  warningCount : Nat
deriving DecidableEq, Repr

/-- `SafetyViolations` render, translated from `SafetyViolations.js`
(lines 36-42 for the props and their defaults, 109-114 for the chip,
221-228 for the blocking alert). `canExport` defaults to `true` exactly as
in the destructuring `canExport = true` of the props. -/
def renderSafetyViolations (violations : List FViolation)
    (warnings : List String) (canExport : Bool := true) : SafetyRender :=
  { exportChipLabel := if canExport then "Cho phép xuất" else "Bị chặn xuất"
    blockedAlertShown := !canExport
    unresolvedCount :=
      if canExport then 0
      else (violations.filter (fun v => !v.overridden)).length
    warningCount := warnings.length }

/-- Client-side gate of `handleOverrideSubmit` (`SafetyViolations.js` lines
69-73): the submit handler aborts when the typed reason has fewer than 50
characters. -/
def handleOverrideSubmitAllowed (reason : String) : Bool :=
  !(reason.length < 50)

/-- Disabled predicate of the confirm button of the override dialog
(`SafetyViolations.js` lines 300-305): disabled while submitting, while the
reason is shorter than 50 characters, or while either identity field is
empty. -/
def overrideConfirmDisabled (submitting : Bool)
    (reason eng_id eng_name : String) : Bool :=
  submitting || decide (reason.length < 50) || decide (eng_id = "")
    || decide (eng_name = "")

/-! ## Frontend: VersionHistory component
(`design_assistant/frontend/src/components/VersionHistory.js`) -/

/-- `handleSelectVersion` (`VersionHistory.js` lines 79-85): clicking a
version's timeline dot toggles it out of the selection if present, adds it
if fewer than two are selected, and otherwise leaves the selection alone. -/
def handleSelectVersion (selected : List Nat) (vid : Nat) : List Nat :=
  if selected.contains vid then
    selected.filter (fun v => v ≠ vid)
  else if selected.length < 2 then
    selected ++ [vid]
  else
    selected

/-- `handleCompare` (`VersionHistory.js` lines 87-97): returns early unless
exactly two versions are selected, otherwise issues the compare request for
the selected pair. The compare button itself is only rendered when
`selectedVersions.length === 2` (lines 179-188). -/
def handleCompare (selected : List Nat) : Option (Nat × Nat) :=
  if h : selected.length = 2 then
    some (selected.get ⟨0, by omega⟩, selected.get ⟨1, by omega⟩)
  else
    none

/-- One-decimal display rounding of a percent change, as rendered by the
compare dialog (`VersionHistory.js` line 335: `percent_change.toFixed(1)`). -/
def toFixed1 (q : ℚ) : ℚ := (round (q * 10) : ℤ) / 10

/-! ## Concrete demonstration data

Concrete registry and store states used to evaluate the operations at
explicit inputs (spec section 8 scenarios). -/

/-- A 49-codepoint override reason (one short of the minimum). -/
def reason49 : String := String.mk (List.replicate 49 'y')

/-- A 50-codepoint override reason (exactly the minimum). -/
def reason50 : String := String.mk (List.replicate 50 'y')

/-- A 60-codepoint override reason (spec section 8 scenario). -/
def reason60 : String := String.mk (List.replicate 60 'x')

/-- A critical violation of job 7, not yet overridden (spec section 8
scenario: `{code:"VL-001", severity:"critical"}`). -/
def demoViolation : Violation :=
  ⟨1, 7, "VL-001", .critical, "Vi pham tieu chuan", false, none⟩

/-- A second critical violation of job 7, not yet overridden. -/
def demoViolationB : Violation :=
  ⟨2, 7, "VL-002", .critical, "Vi pham khac", false, none⟩

/-- A registry holding the one demo violation. -/
def demoReg : RegState := ⟨[demoViolation]⟩

/-- A registry holding both demo violations. -/
def demoReg2 : RegState := ⟨[demoViolation, demoViolationB]⟩

/-- The demo violation after the spec section 8 override (60-character
reason, `engineer_id = "ENG-001"`). -/
def demoOverridden : Violation :=
  applyOverride "ENG-001" "Nguyen Van A" reason60 none 0 demoViolation

/-- The two-violation registry after overriding violation 1. -/
def demoReg2After : RegState := ⟨[demoOverridden, demoViolationB]⟩

/-- A registry whose only violation is already overridden. -/
def demoOverriddenReg : RegState := ⟨[demoOverridden]⟩

/-- Snapshot of the spec section 8 scenario, version v1: `depth = 3.0`. -/
def demoSnapshot : Snapshot :=
  ⟨[("depth", .num 3), ("width", .num 6)], ["log"], ["BL-01.dxf"]⟩

/-- Snapshot of the spec section 8 scenario, version v2: `depth = 3.5`,
other fields equal. -/
def demoSnapshot2 : Snapshot :=
  ⟨[("depth", .num (7 / 2)), ("width", .num 6)], ["log2"], ["BL-01v2.dxf"]⟩

/-- Three creations: two versions of project 1 and one of project 2. -/
def demoOps : List VMOp :=
  [.create 1 demoSnapshot "ENG-001" "v1" 0,
   .create 1 demoSnapshot2 "ENG-001" "v2" 1,
   .create 2 demoSnapshot "ENG-002" "other" 2]

/-- The store reached by `demoOps`. -/
def demoStore : Store := runOps demoOps

/-- First version of project 1 in `demoStore`. -/
def demoVersion1 : Version :=
  ⟨0, 1, 1, .draft, 0, "ENG-001", "v1", none, demoSnapshot⟩

/-- Second version of project 1 in `demoStore`. -/
def demoVersion2 : Version :=
  ⟨1, 1, 2, .draft, 1, "ENG-001", "v2", none, demoSnapshot2⟩

/-- Only version of project 2 in `demoStore`. -/
def demoVersion3 : Version :=
  ⟨2, 2, 1, .draft, 2, "ENG-002", "other", none, demoSnapshot⟩

/-- `demoVersion1` once approved. -/
def demoApproved : Version :=
  ⟨0, 1, 1, .approved, 0, "ENG-001", "v1", none, demoSnapshot⟩

/-- `demoStore` with its first version approved. -/
def demoStoreA : Store := ⟨[demoApproved, demoVersion2, demoVersion3], 3⟩

/-! ## Helper lemmas -/

/-- One selection step preserves the selection invariant: no duplicates and
at most two selected versions. -/
lemma handleSelectVersion_inv (sel : List Nat) (vid : Nat)
    (hnd : sel.Nodup) (hlen : sel.length ≤ 2) :
    (handleSelectVersion sel vid).Nodup ∧
      (handleSelectVersion sel vid).length ≤ 2 := by
  unfold handleSelectVersion
  split
  · exact ⟨hnd.filter _, le_trans (List.length_filter_le _ _) hlen⟩
  · next hmem =>
    split
    · next hl =>
      have hv : vid ∉ sel := by
        intro h
        exact hmem (by simpa [List.elem_iff] using h)
      constructor
      · simp only [List.nodup_append, List.nodup_cons, List.not_mem_nil,
          not_false_iff, List.nodup_nil, and_true, true_and]
        refine ⟨hnd, fun a ha hb => ?_⟩
        simp only [List.mem_singleton] at hb
        subst hb
        exact hv ha
      · simp only [List.length_append, List.length_singleton]
        omega
    · exact ⟨hnd, hlen⟩

/-- The selection invariant holds after any sequence of clicks starting from
a state satisfying it. -/
lemma foldl_handleSelectVersion_inv (clicks : List Nat) :
    ∀ sel : List Nat, sel.Nodup → sel.length ≤ 2 →
      (clicks.foldl handleSelectVersion sel).Nodup ∧
        (clicks.foldl handleSelectVersion sel).length ≤ 2 := by
  induction clicks with
  | nil => intro sel hnd hlen; exact ⟨hnd, hlen⟩
  | cons c cs ih =>
    intro sel hnd hlen
    have h := handleSelectVersion_inv sel c hnd hlen
    exact ih _ h.1 h.2

/-! ## Claim theorems -/

/-- C9: when `SafetyViolations` is rendered without an explicit `canExport`
argument the prop defaults to `true`, so the component always shows the
export-permitted chip ('Cho phép xuất') and never the blocking alert, no
matter which unoverridden critical violations are in the list — the
export-permission display fails open at the component's interface. -/
theorem safetyViolations_default_fails_open
    (violations : List FViolation) (warnings : List String) :
    renderSafetyViolations violations warnings =
      ⟨"Cho phép xuất", false, 0, warnings.length⟩ := by
  rfl

/-- C10: the `VersionHistory` selection list never holds more than two
entries and never holds duplicates after any click sequence; clicking a
selected version removes it, clicking a new version while two are selected
is ignored, and compare fires exactly when two versions are selected. -/
theorem versionHistory_selection_spec :
    (∀ clicks : List Nat,
      (clicks.foldl handleSelectVersion []).Nodup ∧
        (clicks.foldl handleSelectVersion []).length ≤ 2) ∧
    (∀ sel vid, vid ∈ sel →
      handleSelectVersion sel vid = sel.filter (fun v => v ≠ vid)) ∧
    (∀ sel vid, vid ∉ sel → sel.length = 2 →
      handleSelectVersion sel vid = sel) ∧
    (∀ sel, (handleCompare sel).isSome ↔ sel.length = 2) := by
  refine ⟨fun clicks => foldl_handleSelectVersion_inv clicks [] (by simp) (by simp),
    ?_, ?_, ?_⟩
  · intro sel vid hmem
    unfold handleSelectVersion
    rw [if_pos (by simpa [List.elem_iff] using hmem)]
  · intro sel vid hmem hlen
    unfold handleSelectVersion
    rw [if_neg (by simpa [List.elem_iff] using hmem), if_neg (by omega)]
  · intro sel
    by_cases h : sel.length = 2 <;> simp [handleCompare, h]

/-- Closed witness for C10: the invariant after the clicks `[1, 2, 1, 3]`,
removal of a selected version, a third selection being ignored, and compare
being enabled only at exactly two selections, at concrete inputs. -/
theorem versionHistory_selection_spec_witness :
    (([1, 2, 1, 3] : List Nat).foldl handleSelectVersion []).Nodup ∧
    handleSelectVersion [1, 2] 2 = [1] ∧
    handleSelectVersion [1, 2] 3 = [1, 2] ∧
    (handleCompare [1, 2]).isSome := by
  refine ⟨(versionHistory_selection_spec.1 [1, 2, 1, 3]).1,
    (versionHistory_selection_spec.2.1 [1, 2] 2 (by decide)).trans (by decide),
    versionHistory_selection_spec.2.2.1 [1, 2] 3 (by decide) (by decide),
    (versionHistory_selection_spec.2.2.2 [1, 2]).mpr (by decide)⟩

/-- C1: `canExport` is true exactly when `listOpenViolations` is empty;
`listOpenViolations` holds exactly the job's critical unoverridden
violations; a successful override removes that violation from the open
list; and `canExport` stays false while any critical unoverridden
violation of the job remains. -/
theorem exportGate_spec (st : RegState) (job : Nat) :
    (canExport st job = true ↔ listOpenViolations st job = []) ∧
    (∀ v, v ∈ listOpenViolations st job ↔
      v ∈ st.violations ∧ v.job_id = job ∧ v.severity = .critical ∧
        v.overridden = false) ∧
    (∀ vid eid en r ref now v' st',
      overrideViolation st job vid eid en r ref now = .ok (v', st') →
      ∀ w ∈ listOpenViolations st' job, w.id ≠ vid) ∧
    (∀ v ∈ st.violations, v.job_id = job → v.severity = .critical →
      v.overridden = false → canExport st job = false) := by
  refine ⟨by simp [canExport, List.isEmpty_iff], ?_, ?_, ?_⟩
  · intro v
    simp [listOpenViolations, List.mem_filter, Bool.and_eq_true, beq_iff_eq,
      Bool.not_eq_true', and_assoc]
  · intro vid eid en r ref now v' st' h w hw
    unfold overrideViolation at h
    split at h
    · exact absurd h (by simp)
    · split at h
      · exact absurd h (by simp)
      · next u hf =>
        split at h
        · exact absurd h (by simp)
        · next hun =>
          simp only [Except.ok.injEq, Prod.mk.injEq] at h
          obtain ⟨-, hst⟩ := h
          subst hst
          simp only [listOpenViolations, List.mem_filter, List.mem_map] at hw
          obtain ⟨⟨u', hu', rfl⟩, hp⟩ := hw
          by_cases hc : (u'.job_id == job && u'.id == vid) = true
          · rw [if_pos hc] at hp ⊢
            simp [applyOverride] at hp
          · rw [if_neg hc] at hp ⊢
            simp only [Bool.and_eq_true, beq_iff_eq, Bool.not_eq_true'] at hp
            simp only [Bool.and_eq_true, beq_iff_eq, not_and] at hc
            exact hc hp.1.1
  · intro v hv hj hs ho
    have hmem : v ∈ listOpenViolations st job := by
      simp [listOpenViolations, List.mem_filter, hv, hj, hs, ho]
    unfold canExport
    cases hE : listOpenViolations st job with
    | nil => rw [hE] at hmem; cases hmem
    | cons a l => rfl

/-- Closed witness for C1: with two open critical violations of job 7 the
gate is closed, the open list holds the demo violation, and after a
successful override of violation 1 every remaining open violation has a
different id. -/
theorem exportGate_spec_witness :
    canExport demoReg2 7 = false ∧
    demoViolation ∈ listOpenViolations demoReg2 7 ∧
    demoViolationB.id ≠ 1 := by
  refine ⟨(exportGate_spec demoReg2 7).2.2.2 demoViolation (by decide) rfl rfl rfl,
    ((exportGate_spec demoReg2 7).2.1 demoViolation).mpr ⟨by decide, rfl, rfl, rfl⟩,
    (exportGate_spec demoReg2 7).2.2.1 1 "ENG-001" "Nguyen Van A" reason60 none 0
      demoOverridden demoReg2After (by rfl) demoViolationB (by decide)⟩

/-- C2: an override whose reason is shorter than 50 codepoints or whose
engineer identity is empty fails `ValidationError` and leaves the registry
unchanged; with a reason of exactly 50 codepoints, non-empty identity and a
valid un-overridden target it succeeds. -/
theorem override_validation_spec (st : RegState) (job vid : Nat)
    (eid en r : String) (ref : Option String) (now : Nat) :
    (r.length < 50 ∨ eid = "" ∨ en = "" →
      overrideViolation st job vid eid en r ref now = .error .validationError ∧
      applyRegOp st (.override job vid eid en r ref now) = st) ∧
    (r.length = 50 → eid ≠ "" → en ≠ "" →
      ∀ v, st.violations.find? (fun w => w.job_id == job && w.id == vid) = some v →
        v.overridden = false →
        overrideViolation st job vid eid en r ref now =
          .ok (applyOverride eid en r ref now v,
               ⟨st.violations.map (fun w =>
                  if w.job_id == job && w.id == vid then
                    applyOverride eid en r ref now w
                  else w)⟩)) := by
  constructor
  · intro h
    have he : overrideViolation st job vid eid en r ref now =
        .error .validationError := by
      unfold overrideViolation
      rw [if_pos h]
    exact ⟨he, by simp [applyRegOp, he]⟩
  · intro hr he hn v hf hov
    unfold overrideViolation
    rw [if_neg (by push_neg; exact ⟨by omega, he, hn⟩), hf]
    simp [hov]

/-- Closed witness for C2: a 49-character reason fails `ValidationError`
while a 50-character reason with non-empty engineer identity succeeds, on
the demo registry. -/
theorem override_validation_spec_witness :
    overrideViolation demoReg 7 1 "ENG-001" "Nguyen Van A" reason49 none 0 =
      .error .validationError ∧
    (overrideViolation demoReg 7 1 "ENG-001" "Nguyen Van A" reason50 none 0).isOk
      = true := by
  constructor
  · exact ((override_validation_spec demoReg 7 1 "ENG-001" "Nguyen Van A"
      reason49 none 0).1 (Or.inl (by decide))).1
  · rw [(override_validation_spec demoReg 7 1 "ENG-001" "Nguyen Van A"
      reason50 none 0).2 (by decide) (by decide) (by decide) demoViolation
      (by rfl) rfl]
    rfl

/-- C3: a valid override request against an already-overridden violation
fails `Conflict` and leaves the registry (hence the stored override)
unchanged; and under every registry operation an overridden violation stays
overridden — the flag never reverts to false. -/
theorem override_conflict_spec (st : RegState) (job vid : Nat)
    (eid en r : String) (ref : Option String) (now : Nat) :
    (¬(r.length < 50 ∨ eid = "" ∨ en = "") →
      ∀ v, st.violations.find? (fun w => w.job_id == job && w.id == vid) = some v →
        v.overridden = true →
        overrideViolation st job vid eid en r ref now = .error .conflict ∧
        applyRegOp st (.override job vid eid en r ref now) = st) ∧
    (∀ op : RegOp, ∀ v ∈ st.violations, v.overridden = true →
      ∃ v' ∈ (applyRegOp st op).violations,
        v'.id = v.id ∧ v'.job_id = v.job_id ∧ v'.overridden = true) := by
  constructor
  · intro hval v hf hov
    have he : overrideViolation st job vid eid en r ref now = .error .conflict := by
      unfold overrideViolation
      rw [if_neg hval, hf]
      simp [hov]
    exact ⟨he, by simp [applyRegOp, he]⟩
  · intro op v hv hov
    cases op with
    | record job' vs =>
      exact ⟨v, List.mem_append_left _ hv, rfl, rfl, hov⟩
    | override job' vid' eid' en' r' ref' now' =>
      cases hres : overrideViolation st job' vid' eid' en' r' ref' now' with
      | error e =>
        have happ : applyRegOp st (.override job' vid' eid' en' r' ref' now') = st := by
          simp [applyRegOp, hres]
        rw [happ]
        exact ⟨v, hv, rfl, rfl, hov⟩
      | ok p =>
        have happ : applyRegOp st (.override job' vid' eid' en' r' ref' now') = p.2 := by
          simp [applyRegOp, hres]
        rw [happ]
        unfold overrideViolation at hres
        split at hres
        · exact absurd hres (by simp)
        · split at hres
          · exact absurd hres (by simp)
          · next u hf =>
            split at hres
            · exact absurd hres (by simp)
            · simp only [Except.ok.injEq] at hres
              subst hres
              refine ⟨if v.job_id == job' && v.id == vid' then
                  applyOverride eid' en' r' ref' now' v else v,
                List.mem_map_of_mem _ hv, ?_⟩
              by_cases hc : (v.job_id == job' && v.id == vid') = true
              · rw [if_pos hc]
                exact ⟨rfl, rfl, rfl⟩
              · rw [if_neg hc]
                exact ⟨rfl, rfl, hov⟩

/-- Closed witness for C3: a second, otherwise valid override attempt on
the already-overridden demo violation fails `Conflict` and leaves the
registry unchanged. -/
theorem override_conflict_spec_witness :
    overrideViolation demoOverriddenReg 7 1 "ENG-001" "Nguyen Van A" reason60
      none 1 = .error .conflict ∧
    applyRegOp demoOverriddenReg
      (.override 7 1 "ENG-001" "Nguyen Van A" reason60 none 1) =
      demoOverriddenReg :=
  (override_conflict_spec demoOverriddenReg 7 1 "ENG-001" "Nguyen Van A"
    reason60 none 1).1 (by decide) demoOverridden (by rfl) rfl

/-- The per-project tag invariant: in ledger order, each project's tag
sequence is exactly `1, 2, …, n` — ascending, strictly increasing, gap-free
and duplicate-free. -/
def TagInv (st : Store) : Prop :=
  ∀ pid, (projectVersions st pid).map Version.tag =
    List.range' 1 (projectVersions st pid).length

lemma tagInv_empty : TagInv Store.empty := by
  intro pid
  rfl

/-- Appending a version whose tag is the successor of its project's version
count extends that project's tag sequence `1, …, n` to `1, …, n + 1`. -/
lemma filter_tags_append (l : List Version) (nv : Version) (pid : Nat)
    (h : (l.filter (fun v => v.project_id == pid)).map Version.tag =
      List.range' 1 (l.filter (fun v => v.project_id == pid)).length)
    (htag : nv.tag =
      (l.filter (fun v => v.project_id == nv.project_id)).length + 1) :
    ((l ++ [nv]).filter (fun v => v.project_id == pid)).map Version.tag =
      List.range' 1 ((l ++ [nv]).filter (fun v => v.project_id == pid)).length := by
  rw [List.filter_append]
  cases hb : (nv.project_id == pid) with
  | false =>
    have hnil : List.filter (fun v => v.project_id == pid) [nv] = [] := by
      simp [List.filter, hb]
    rw [hnil, List.append_nil]
    exact h
  | true =>
    have hsing : List.filter (fun v => v.project_id == pid) [nv] = [nv] := by
      simp [List.filter, hb]
    have hp : nv.project_id = pid := by simpa using hb
    rw [hp] at htag
    rw [hsing, List.map_append, List.length_append, h]
    simp only [List.map_cons, List.map_nil, List.length_cons,
      List.length_nil, Nat.zero_add]
    rw [htag]
    have hconcat := @List.range'_concat 1 1
      (List.filter (fun v => v.project_id == pid) l).length
    simp only [Nat.mul_one] at hconcat
    rw [hconcat]
    simp [Nat.add_comm]

/-- Appending a version carrying the atomically allocated next tag of its
project preserves the tag invariant. -/
lemma tagInv_append (st : Store) (nv : Version) (k : Nat) (h : TagInv st)
    (htag : nv.tag = nextTag st nv.project_id) :
    TagInv ⟨st.versions ++ [nv], k⟩ := by
  intro pid
  exact filter_tags_append st.versions nv pid (h pid) htag

/-- Mapping a transformation that preserves `project_id` and `tag` over the
ledger preserves the tag invariant. -/
lemma tagInv_map (st : Store) (k : Nat) (f : Version → Version)
    (hp : ∀ w, (f w).project_id = w.project_id)
    (ht : ∀ w, (f w).tag = w.tag) (h : TagInv st) :
    TagInv ⟨st.versions.map f, k⟩ := by
  have key : ∀ l : List Version, ∀ pid : Nat,
      ((l.map f).filter (fun v => v.project_id == pid)).map Version.tag =
        (l.filter (fun v => v.project_id == pid)).map Version.tag := by
    intro l pid
    induction l with
    | nil => rfl
    | cons a l ih =>
      simp only [List.map_cons, List.filter_cons, hp a]
      cases hb : (a.project_id == pid) with
      | true => simp [ht a, ih]
      | false => simpa using ih
  intro pid
  have hl : (projectVersions ⟨st.versions.map f, k⟩ pid).map Version.tag =
      (projectVersions st pid).map Version.tag := key st.versions pid
  have hlen : (projectVersions ⟨st.versions.map f, k⟩ pid).length =
      (projectVersions st pid).length := by
    have hc := congrArg List.length hl
    simpa using hc
  rw [hl, hlen]
  exact h pid

/-- Every VersionManager transaction preserves the tag invariant. -/
lemma tagInv_applyVMOp (st : Store) (op : VMOp) (h : TagInv st) :
    TagInv (applyVMOp st op) := by
  cases op with
  | create pid snap cb desc now =>
    exact tagInv_append st _ _ h rfl
  | approve vid =>
    cases hres : approveVersion st vid with
    | error e =>
      have happ : applyVMOp st (.approve vid) = st := by simp [applyVMOp, hres]
      rw [happ]
      exact h
    | ok p =>
      have happ : applyVMOp st (.approve vid) = p.2 := by simp [applyVMOp, hres]
      rw [happ]
      unfold approveVersion at hres
      split at hres
      · exact absurd hres (by simp)
      · next v hf =>
        split at hres
        · simp only [Except.ok.injEq] at hres
          rw [← hres]
          exact h
        · simp only [Except.ok.injEq] at hres
          rw [← hres]
          exact tagInv_map st st.next_id
            (fun w => if w.version_id == vid then
              { w with status := VStatus.approved } else w)
            (fun w => by cases hw : (w.version_id == vid) <;> simp [hw])
            (fun w => by cases hw : (w.version_id == vid) <;> simp [hw])
            h
  | rollback pid vid cb now =>
    cases hres : rollbackVersion st pid vid cb now with
    | error e =>
      have happ : applyVMOp st (.rollback pid vid cb now) = st := by
        simp [applyVMOp, hres]
      rw [happ]
      exact h
    | ok p =>
      have happ : applyVMOp st (.rollback pid vid cb now) = p.2 := by
        simp [applyVMOp, hres]
      rw [happ]
      unfold rollbackVersion at hres
      split at hres
      · exact absurd hres (by simp)
      · next t hf =>
        split at hres
        · exact absurd hres (by simp)
        · next hm =>
          simp only [Except.ok.injEq] at hres
          rw [← hres]
          push_neg at hm
          exact tagInv_append st _ _ h (by simp [hm, nextTag])

/-- The tag invariant holds in every reachable store. -/
lemma tagInv_runOps (ops : List VMOp) : TagInv (runOps ops) := by
  unfold runOps
  have key : ∀ l : List VMOp, ∀ st : Store, TagInv st →
      TagInv (l.foldl applyVMOp st) := by
    intro l
    induction l with
    | nil => intro st h; exact h
    | cons o os ih => intro st h; exact ih _ (tagInv_applyVMOp st o h)
  exact key ops Store.empty tagInv_empty

/-- The demo store's ledger, evaluated. -/
lemma demoStore_versions :
    demoStore.versions = [demoVersion1, demoVersion2, demoVersion3] := by
  rfl

/-- C4: for every reachable store and every project, `listVersions` returns
that project's versions ascending by tag, the tag sequence is exactly
`1, …, n` (strictly increasing, gap-free), and tags are unique per
project. -/
theorem listVersions_tags_spec (ops : List VMOp) (pid : Nat) :
    ((listVersions (runOps ops) pid).map Version.tag =
      List.range' 1 (listVersions (runOps ops) pid).length) ∧
    ((listVersions (runOps ops) pid).map Version.tag).Pairwise (· < ·) ∧
    ((listVersions (runOps ops) pid).map Version.tag).Nodup ∧
    (∀ v, v ∈ listVersions (runOps ops) pid ↔
      v ∈ (runOps ops).versions ∧ v.project_id = pid) := by
  have h := tagInv_runOps ops pid
  refine ⟨h, ?_, ?_, ?_⟩
  · unfold listVersions
    rw [h]
    exact List.pairwise_lt_range' _ _ 1 (by omega)
  · unfold listVersions
    rw [h]
    exact List.nodup_range' _ _ 1 (by omega)
  · intro v
    simp [listVersions, projectVersions, List.mem_filter]

/-- C5: in every reachable store — i.e. after any interleaving of atomic
`createVersion` (and other) transactions — no two distinct versions of the
same project carry the same tag: tag allocation is atomic per project. -/
theorem createVersion_no_duplicate_tags (ops : List VMOp) :
    ∀ v1 ∈ (runOps ops).versions, ∀ v2 ∈ (runOps ops).versions,
      v1.project_id = v2.project_id → v1.tag = v2.tag → v1 = v2 := by
  intro v1 h1 v2 h2 hp htag
  have hinv := tagInv_runOps ops v1.project_id
  have hnd : ((projectVersions (runOps ops) v1.project_id).map Version.tag).Nodup := by
    rw [hinv]
    exact List.nodup_range' _ _ 1 (by omega)
  have hm1 : v1 ∈ projectVersions (runOps ops) v1.project_id := by
    simp [projectVersions, List.mem_filter, h1]
  have hm2 : v2 ∈ projectVersions (runOps ops) v1.project_id := by
    simp [projectVersions, List.mem_filter, h2, ← hp]
  exact List.inj_on_of_nodup_map hnd hm1 hm2 htag

/-- Closed witness for C5: the two demo versions of project 1 are distinct,
so by the theorem their tags must differ. -/
theorem createVersion_no_duplicate_tags_witness :
    demoVersion1.tag ≠ demoVersion2.tag := by
  intro htag
  have hm1 : demoVersion1 ∈ (runOps demoOps).versions := by
    rw [show (runOps demoOps).versions = demoStore.versions from rfl,
      demoStore_versions]
    exact List.mem_cons_self _ _
  have hm2 : demoVersion2 ∈ (runOps demoOps).versions := by
    rw [show (runOps demoOps).versions = demoStore.versions from rfl,
      demoStore_versions]
    exact List.mem_cons_of_mem _ (List.mem_cons_self _ _)
  have heq := createVersion_no_duplicate_tags demoOps demoVersion1 hm1
    demoVersion2 hm2 rfl htag
  exact absurd (congrArg Version.version_id heq) (by decide)

/-- C6: `rollbackVersion` on an existing version of the project returns a
brand-new version with `status = rollback`, `lineage_of` pointing at the
target and a snapshot deep-equal to the target's, appended to the
unchanged ledger (so the target itself is not mutated); it fails `NotFound`
when the target is absent and `CrossProjectMismatch` when the target
belongs to a different project. -/
theorem rollback_spec (st : Store) (pid vid : Nat) (cb : String) (now : Nat) :
    (st.versions.find? (fun v => v.version_id == vid) = none →
      rollbackVersion st pid vid cb now = .error .notFound) ∧
    (∀ t, st.versions.find? (fun v => v.version_id == vid) = some t →
      t.project_id ≠ pid →
      rollbackVersion st pid vid cb now = .error .crossProjectMismatch) ∧
    (∀ t, st.versions.find? (fun v => v.version_id == vid) = some t →
      t.project_id = pid →
      ∃ nv, rollbackVersion st pid vid cb now =
          .ok (nv, ⟨st.versions ++ [nv], st.next_id + 1⟩) ∧
        nv.status = .rollback ∧ nv.lineage_of = some vid ∧
        nv.snapshot = t.snapshot ∧ nv.version_id = st.next_id) := by
  refine ⟨?_, ?_, ?_⟩
  · intro hf
    simp only [rollbackVersion, hf]
  · intro t hf hne
    simp only [rollbackVersion, hf]
    rw [if_pos hne]
  · intro t hf hpr
    simp only [rollbackVersion, hf]
    rw [if_neg (fun h => h hpr)]
    exact ⟨_, rfl, rfl, rfl, rfl, rfl⟩

/-- Closed witness for C6: on the demo store, rolling back to a missing
version fails `NotFound`, rolling back across projects fails
`CrossProjectMismatch`, and rolling back version 0 of project 1
succeeds. -/
theorem rollback_spec_witness :
    rollbackVersion demoStore 1 99 "ENG-003" 5 = .error .notFound ∧
    rollbackVersion demoStore 2 0 "ENG-003" 5 = .error .crossProjectMismatch ∧
    (rollbackVersion demoStore 1 0 "ENG-003" 5).isOk = true := by
  refine ⟨(rollback_spec demoStore 1 99 "ENG-003" 5).1 (by rfl),
    (rollback_spec demoStore 2 0 "ENG-003" 5).2.1 demoVersion1 (by rfl)
      (by decide), ?_⟩
  obtain ⟨nv, heq, -, -, -, -⟩ :=
    (rollback_spec demoStore 1 0 "ENG-003" 5).2.2 demoVersion1 (by rfl) rfl
  rw [heq]
  rfl

/-- C8: `approveVersion` fails `NotFound` for a missing version, is a no-op
on an already-approved version (idempotent, returning the version and store
unchanged), and turns a draft version into the same version with
`status = approved`, touching no other field and no other version of the
ledger. -/
theorem approve_spec (st : Store) (vid : Nat) :
    (st.versions.find? (fun w => w.version_id == vid) = none →
      approveVersion st vid = .error .notFound) ∧
    (∀ v, st.versions.find? (fun w => w.version_id == vid) = some v →
      v.status = .approved →
      approveVersion st vid = .ok (v, st)) ∧
    (∀ v, st.versions.find? (fun w => w.version_id == vid) = some v →
      v.status = .draft →
      approveVersion st vid =
        .ok ({ v with status := .approved },
          ⟨st.versions.map (fun w => if w.version_id == vid then
              { w with status := .approved } else w), st.next_id⟩) ∧
      (∀ w ∈ st.versions, w.version_id ≠ vid →
        w ∈ (approveVersion st vid).toOption.elim st.versions
          (fun p => p.2.versions))) := by
  refine ⟨?_, ?_, ?_⟩
  · intro hf
    simp only [approveVersion, hf]
  · intro v hf hs
    simp only [approveVersion, hf]
    rw [if_pos hs]
  · intro v hf hs
    have heq : approveVersion st vid =
        .ok ({ v with status := .approved },
          ⟨st.versions.map (fun w => if w.version_id == vid then
              { w with status := .approved } else w), st.next_id⟩) := by
      simp only [approveVersion, hf]
      rw [if_neg (by simp [hs])]
    refine ⟨heq, ?_⟩
    intro w hw hne
    rw [heq]
    simp only [Except.toOption, Option.elim]
    exact List.mem_map.mpr ⟨w, hw, by simp [hne]⟩

/-- Closed witness for C8: on the demo stores, approving a missing version
fails `NotFound`, re-approving the approved version 0 is a no-op, and
approving draft version 0 succeeds. -/
theorem approve_spec_witness :
    approveVersion demoStore 99 = .error .notFound ∧
    approveVersion demoStoreA 0 = .ok (demoApproved, demoStoreA) ∧
    (approveVersion demoStore 0).isOk = true := by
  refine ⟨(approve_spec demoStore 99).1 (by rfl),
    (approve_spec demoStoreA 0).2.1 demoApproved (by rfl) rfl, ?_⟩
  rw [((approve_spec demoStore 0).2.2 demoVersion1 (by rfl) rfl).1]
  rfl

/-- A successful association-list lookup witnesses membership. -/
lemma lookup_mem_of_eq_some {l : List (String × PValue)} {k : String}
    {v : PValue} (h : l.lookup k = some v) : (k, v) ∈ l := by
  induction l with
  | nil => simp [List.lookup] at h
  | cons p l ih =>
    obtain ⟨pk, pv⟩ := p
    cases hb : (k == pk) with
    | true =>
      have hk : k = pk := by simpa using hb
      simp only [List.lookup, hb] at h
      obtain rfl : pv = v := by simpa using h
      subst hk
      exact List.mem_cons_self _ _
    | false =>
      simp only [List.lookup, hb] at h
      exact List.mem_cons_of_mem _ (ih h)

/-- With duplicate-free keys, membership determines the lookup result. -/
lemma lookup_eq_some_of_mem_nodup {l : List (String × PValue)} {k : String}
    {v : PValue} (hnd : (l.map Prod.fst).Nodup) (h : (k, v) ∈ l) :
    l.lookup k = some v := by
  induction l with
  | nil => cases h
  | cons p l ih =>
    obtain ⟨pk, pv⟩ := p
    simp only [List.map_cons, List.nodup_cons] at hnd
    rcases List.mem_cons.mp h with he | hm
    · injection he with hk hv
      subst hk
      subst hv
      simp [List.lookup]
    · have hk : k ≠ pk := by
        rintro rfl
        exact hnd.1 (List.mem_map.mpr ⟨(k, v), hm, rfl⟩)
      have hb : (k == pk) = false := by simpa using hk
      simp only [List.lookup, hb]
      exact ih hnd.2 hm

/-- The spec section 8 depth comparison, evaluated: only `depth` is
modified, from 3 to 7/2, with exact percent change 50/3. -/
lemma diff_demo_eval :
    diff demoSnapshot.input_parameters demoSnapshot2.input_parameters =
      ⟨[], [], [⟨"depth", .num 3, .num (7 / 2), some (50 / 3)⟩]⟩ := by
  have h1 : (("width" : String) == "depth") = false := by decide
  have h2 : (("depth" : String) == "depth") = true := by decide
  norm_num [diff, demoSnapshot, demoSnapshot2, List.lookup, List.filter,
    List.filterMap, percentChange, h1, h2]

/-- Counterexample for C7 as stated: in the depth 3.0 → 3.5 scenario the
computed `percent_change` is the exact value 50/3 = 16.666…, not the
claimed 16.7. -/
theorem diff_example_percent_not_16_7 :
    (diff demoSnapshot.input_parameters demoSnapshot2.input_parameters).modified ≠
      [⟨"depth", .num 3, .num (7 / 2), some (167 / 10)⟩] := by
  rw [diff_demo_eval]
  intro h
  simp only [List.cons.injEq, and_true, ModEntry.mk.injEq, true_and,
    Option.some.injEq] at h
  norm_num at h

/-- C7 (amended): `modified` holds exactly the keys present in both maps
with unequal values; every reported entry carries
`percent_change = percentChange old new`, which for numeric values with
nonzero old equals `(new - old) / old * 100` and is `none` when the old
value is 0; the depth 3.0 → 3.5 scenario yields exactly
`modified = [{depth, 3, 7/2, 50/3}]` with empty `added`/`removed`, and
50/3 displays as 16.7 after the frontend's one-decimal rounding. -/
theorem diff_modified_spec (oldm newm : List (String × PValue))
    (hold : (oldm.map Prod.fst).Nodup) :
    (∀ k, k ∈ (diff oldm newm).modified.map ModEntry.key ↔
      ∃ vo vn, oldm.lookup k = some vo ∧ newm.lookup k = some vn ∧ vo ≠ vn) ∧
    (∀ e ∈ (diff oldm newm).modified,
      e.percent_change = percentChange e.old e.new) ∧
    (∀ oq nq : ℚ, oq ≠ 0 →
      percentChange (.num oq) (.num nq) = some ((nq - oq) / oq * 100)) ∧
    (∀ nq : ℚ, percentChange (.num 0) (.num nq) = none) ∧
    diff demoSnapshot.input_parameters demoSnapshot2.input_parameters =
      ⟨[], [], [⟨"depth", .num 3, .num (7 / 2), some (50 / 3)⟩]⟩ ∧
    toFixed1 (50 / 3) = 167 / 10 := by
  refine ⟨?_, ?_, ?_, ?_, diff_demo_eval, ?_⟩
  · intro k
    constructor
    · intro hk
      simp only [diff, List.mem_map] at hk
      obtain ⟨e, he, rfl⟩ := hk
      obtain ⟨p, hp, hf⟩ := List.mem_filterMap.mp he
      obtain ⟨pk, pv⟩ := p
      cases hl : newm.lookup (pk, pv).1 with
      | none =>
        simp only [hl] at hf
        cases hf
      | some nv =>
        simp only [hl] at hf
        by_cases hv : nv = pv
        · rw [if_pos hv] at hf
          cases hf
        · rw [if_neg hv] at hf
          injection hf with hf
          subst hf
          exact ⟨pv, nv, lookup_eq_some_of_mem_nodup hold hp, hl,
            fun h => hv h.symm⟩
    · rintro ⟨vo, vn, hvo, hvn, hne⟩
      simp only [diff, List.mem_map]
      refine ⟨⟨k, vo, vn, percentChange vo vn⟩,
        List.mem_filterMap.mpr ⟨(k, vo), lookup_mem_of_eq_some hvo, ?_⟩, rfl⟩
      simp only [hvn]
      rw [if_neg (fun h => hne h.symm)]
  · intro e he
    simp only [diff] at he
    obtain ⟨p, hp, hf⟩ := List.mem_filterMap.mp he
    cases hl : newm.lookup p.1 with
    | none =>
      simp only [hl] at hf
      cases hf
    | some nv =>
      simp only [hl] at hf
      by_cases hv : nv = p.2
      · rw [if_pos hv] at hf
        cases hf
      · rw [if_neg hv] at hf
        injection hf with hf
        subst hf
        rfl
  · intro oq nq h
    simp [percentChange, h]
  · intro nq
    simp [percentChange]
  · unfold toFixed1
    have h : round ((50 : ℚ) / 3 * 10) = 167 := by
      rw [show ((50 : ℚ) / 3 * 10) = 500 / 3 by norm_num, round_eq]
      norm_num
    rw [h]
    norm_num

/-- Closed witness for C7: the two concrete snapshot parameter maps have
duplicate-free keys, and the modified-keys characterization reports
`depth` as modified. -/
theorem diff_modified_spec_witness :
    "depth" ∈ ((diff demoSnapshot.input_parameters
      demoSnapshot2.input_parameters).modified.map ModEntry.key) :=
  ((diff_modified_spec demoSnapshot.input_parameters
      demoSnapshot2.input_parameters (by decide)).1 "depth").mpr
    ⟨.num 3, .num (7 / 2), (by rfl), (by rfl),
      (by simp only [ne_eq, PValue.num.injEq]; norm_num)⟩
